import Mathlib

/-!
# Verification of the TRH quantification engine (`src/op.py`)

Shallow embedding of the quantification engine of the `org-process`
repository: peak lists, retention-time-to-index resolution, internal
standard (ISTD) location, blank averaging and the blank-corrected /
ISTD-normalised / calibration-inverted concentration formula.

Conventions of the embedding:
* Python floats are modelled as rationals (`ℚ`); Python ints as `ℤ`.
* Python code that can raise returns `Except OpError _`; division uses
  `pydiv`, which errors on a zero divisor exactly as Python's `/` does.
* A peak tuple `(index, start_rt, rt, end_rt, area)` (the order produced
  by `get_data_from_report` and selected by the `opx.PEAK_LS_*` column
  constants) is the structure `Peak`.
* `min(lst, key=k)` on a non-empty list, which returns the first element
  attaining the minimal key, is `pymin_key k lst`.
* Python list slicing `lst[i:j]` with its clipping / negative-index
  semantics is `pySlice`.
* The retention-time boundary constants (`opx.C10_C16_START`, `opx.*_END`)
  and `opx.DEF_DECIMAL_PLACES` live in the configuration module `opx`,
  which is not part of the engine source; following §6 of the spec they
  are configuration supplied by the caller and are passed as parameters.
-/

namespace OrgProcess

/-- Errors raised by the engine: the two `IstdError` messages of
`get_istd_area`, Python's `ValueError` from `min` on an empty sequence
(reachable in `get_fraction_end_index`), and `ZeroDivisionError`. -/
inductive OpError where
  | istdNoPeak : OpError
  | istdMultiplePeaks : OpError
  | valueError : OpError
  | zeroDivision : OpError
deriving DecidableEq, Repr

/-- One detected chromatographic peak, the tuple
`(index, start_rt, rt, end_rt, area)` of the source. -/
structure Peak where
  idx : ℤ
  start_rt : ℚ
  rt : ℚ
  end_rt : ℚ
  area : ℚ
deriving DecidableEq, Repr

/-- Python `/`: raises `ZeroDivisionError` on a zero divisor. -/
def pydiv (a b : ℚ) : Except OpError ℚ :=
  if b = 0 then .error .zeroDivision else .ok (a / b)

/-- Python `min(l, key=k)` for non-empty `l`: the first element of `l`
attaining the minimal key (later elements replace the accumulator only on
a strictly smaller key). `none` on the empty list, where Python raises
`ValueError`. -/
def pymin_key (k : α → ℚ) : List α → Option α
  | [] => none
  | x :: xs => some (xs.foldl (fun acc y => if k y < k acc then y else acc) x)

/-- Effective position of Python slice bound `i` on a list of length
`len`: negative bounds count from the end and the result is clipped to
`[0, len]`. -/
def pySliceIdx (len : ℕ) (i : ℤ) : ℕ :=
  if i < 0 then ((len : ℤ) + i).toNat else min i.toNat len

/-- Python list slicing `l[i:j]`. -/
def pySlice (l : List α) (i j : ℤ) : List α :=
  (l.drop (pySliceIdx l.length i)).take (pySliceIdx l.length j - pySliceIdx l.length i)

/-- `round(x, n)` of Python on an exact rational: round half to even at
`n` decimal places. -/
def pyRound (x : ℚ) (n : ℕ) : ℚ :=
  let y := x * (10 : ℚ) ^ n
  let f : ℤ := ⌊y⌋
  let r := y - (f : ℚ)
  let z : ℤ :=
    if r < 1 / 2 then f
    else if 1 / 2 < r then f + 1
    else if f % 2 = 0 then f else f + 1
  (z : ℚ) / (10 : ℚ) ^ n

/-- `sum_areas` (op.py:287): sum of the `area` column over the Python
slice `peak_data_list[low_index:high_index]`. -/
def sum_areas (peak_data_list : List Peak) (low_index high_index : ℤ) : ℚ :=
  ((pySlice peak_data_list low_index high_index).map (fun x => x.area)).sum

/-- The candidate list built inside `get_fraction_end_index` (op.py:216):
`(index, end_rt − rt_end)` for the peaks with `end_rt − rt_end ≥ 0`. -/
def end_indexes (peak_data_list : List Peak) (rt_end : ℚ) : List (ℤ × ℚ) :=
  (peak_data_list.filter (fun x => 0 ≤ x.end_rt - rt_end)).map
    (fun x => (x.idx, x.end_rt - rt_end))

/-- `get_fraction_end_index` (op.py:208): stored index of the peak whose
`end_rt` is closest to `rt_end` from above; `min` on an empty candidate
list raises `ValueError`. -/
def get_fraction_end_index (peak_data_list : List Peak) (rt_end : ℚ) :
    Except OpError ℤ :=
  match pymin_key (fun i => i.2) (end_indexes peak_data_list rt_end) with
  | none => .error .valueError
  | some end_tuple => .ok end_tuple.1

/-- The candidate list built inside `get_fraction_start_index`
(op.py:231): `(index, |start_rt − rt_start|)` for the peaks with
`start_rt − rt_start ≤ 0`. -/
def start_indexes (peak_data_list : List Peak) (rt_start : ℚ) : List (ℤ × ℚ) :=
  (peak_data_list.filter (fun x => x.start_rt - rt_start ≤ 0)).map
    (fun x => (x.idx, |x.start_rt - rt_start|))

/-- `get_fraction_start_index` (op.py:223): stored index of the peak
whose `start_rt` is closest to `rt_start` from below; the `ValueError`
of `min` on no candidates is caught and `1` returned. -/
def get_fraction_start_index (peak_data_list : List Peak) (rt_start : ℚ) : ℤ :=
  match pymin_key (fun i => i.2) (start_indexes peak_data_list rt_start) with
  | none => 1
  | some start_tuple => start_tuple.1

/-- The `(rt, area)` candidate pairs built inside `get_istd_area`
(op.py:261): peaks inside both the retention-time window and the area
window. -/
def istd_peak_list (peak_data_list : List Peak)
    (istd_rt istd_rt_tolerance istd_area_target istd_area_tolerance : ℚ) :
    List (ℚ × ℚ) :=
  (peak_data_list.filter (fun x =>
      istd_rt - istd_rt_tolerance ≤ x.rt ∧ x.rt ≤ istd_rt + istd_rt_tolerance ∧
      istd_area_target - istd_area_tolerance ≤ x.area ∧
      x.area ≤ istd_area_target + istd_area_tolerance)).map
    (fun x => (x.rt, x.area))

/-- The disambiguation step of `get_istd_area` (op.py:264–267): when the
candidate list holds more than one `(rt, area)` pair it is replaced by
the singleton `[min(istd_relative_rt, key=fst)]` over the
`(|rt − istd_rt|, area)` pairs; otherwise it is left unchanged. -/
def isolate_istd (istd_rt : ℚ) (candidates : List (ℚ × ℚ)) : List (ℚ × ℚ) :=
  if candidates.length > 1 then
    match pymin_key (fun i => i.1)
        (candidates.map (fun p => (|p.1 - istd_rt|, p.2))) with
    | some m => [m]
    | none => []
  else candidates

/-- `get_istd_area` (op.py:243): filter peaks into both tolerance
windows; with several candidates keep only the one closest to the
nominal retention time; fail on zero candidates, fail on more than one,
otherwise return the area. -/
def get_istd_area (peak_data_list : List Peak)
    (istd_rt istd_rt_tolerance istd_area_target istd_area_tolerance : ℚ) :
    Except OpError ℚ :=
  match isolate_istd istd_rt (istd_peak_list peak_data_list istd_rt
      istd_rt_tolerance istd_area_target istd_area_tolerance) with
  | [] => .error .istdNoPeak
  | [p] => .ok p.2
  | _ :: _ :: _ => .error .istdMultiplePeaks

/-- `mean` (op.py:278): `sum(list) / len(list)`; Python raises
`ZeroDivisionError` on the empty list. -/
def mean (l : List ℚ) : Except OpError ℚ :=
  pydiv l.sum (l.length : ℚ)

/-- Step 6 of the concentration formula (op.py:120): inversion of the
linear calibration fit, `(response_ratio − intercept) / slope`. -/
def calibration_inversion (response_ratio calibration_intercept calibration_slope : ℚ) :
    Except OpError ℚ :=
  pydiv (response_ratio - calibration_intercept) calibration_slope

/-- `calculate_sample_concentration` (op.py:98). `blank_area` and
`blank_istd` are the attributes `blank.area` (the fraction background
area the caller stores on the `BlankAverage` before the call) and
`blank.istd` read at op.py:116; `def_decimal_places` is the
configuration constant `opx.DEF_DECIMAL_PLACES`. -/
def calculate_sample_concentration (peak_data_list : List Peak)
    (blank_area blank_istd : ℚ) (low_index high_index : ℤ)
    (istd_rt istd_rt_tolerance istd_area_target istd_area_tolerance : ℚ)
    (calibration_slope calibration_intercept istd_concentration dilution_factor : ℚ)
    (def_decimal_places : ℕ) : Except OpError ℚ := do
  let istd ← get_istd_area peak_data_list istd_rt istd_rt_tolerance
    istd_area_target istd_area_tolerance
  let blank_ratio ← pydiv blank_area blank_istd
  let response_ratio ← pydiv
    (sum_areas peak_data_list low_index high_index - istd * blank_ratio) istd
  let concentration_ratio ← calibration_inversion response_ratio
    calibration_intercept calibration_slope
  return pyRound (concentration_ratio * istd_concentration * dilution_factor)
    def_decimal_places

/-- Per-blank body of the `else` (full-TRH) branch of
`BlankAverage.__init__` (op.py:68–84): resolve the four boundary indices
in source order and return the four fraction sums
`(sum_c10_c16, sum_c16_c34, sum_c34_c40, sum_c10_c40)`. -/
def blank_fraction_sums (blank : List Peak)
    (c10_c16_start c10_c16_end c16_c34_end c34_c40_end : ℚ) :
    Except OpError (ℚ × ℚ × ℚ × ℚ) := do
  let i_c16 ← get_fraction_end_index blank c10_c16_end
  let i_c34 ← get_fraction_end_index blank c16_c34_end
  let i_c40 ← get_fraction_end_index blank c34_c40_end
  return (sum_areas blank (get_fraction_start_index blank c10_c16_start) i_c16,
    sum_areas blank i_c16 i_c34,
    sum_areas blank i_c34 i_c40,
    sum_areas blank (get_fraction_start_index blank c10_c16_start) i_c40)

/-- The attributes a full-TRH mode `BlankAverage` carries after
`__init__` (the `area` scratch slot, still `None` at that point, is
omitted). -/
structure BlankAverageFull where
  area_c10_c16 : ℚ
  area_c16_c34 : ℚ
  area_c34_c40 : ℚ
  area_c10_c40 : ℚ
  istd : ℚ
deriving DecidableEq, Repr

/-- `BlankAverage.__init__` (op.py:49–92) with `analysis_c6_c10` false:
average the per-blank fraction sums and the per-blank ISTD areas. The
loop reassigns each `self.area_*` to the mean of the sums collected so
far, so the value after the loop is the mean over all blanks; a boundary
or ISTD failure in any blank propagates. The boundary retention times
are the `opx.C10_C16_START`, `opx.C10_C16_END`, `opx.C16_C34_END` and
`opx.C34_C40_END` configuration constants, passed as parameters. -/
def blankAverageFull (blank_data : List (List Peak))
    (c10_c16_start c10_c16_end c16_c34_end c34_c40_end : ℚ)
    (istd_rt istd_rt_tolerance istd_area_target istd_area_tolerance : ℚ) :
    Except OpError BlankAverageFull := do
  let sums ← blank_data.mapM (fun blank =>
    blank_fraction_sums blank c10_c16_start c10_c16_end c16_c34_end c34_c40_end)
  let area_c10_c16 ← mean (sums.map (fun s => s.1))
  let area_c16_c34 ← mean (sums.map (fun s => s.2.1))
  let area_c34_c40 ← mean (sums.map (fun s => s.2.2.1))
  let area_c10_c40 ← mean (sums.map (fun s => s.2.2.2))
  let istds ← blank_data.mapM (fun x =>
    get_istd_area x istd_rt istd_rt_tolerance istd_area_target istd_area_tolerance)
  let istd ← mean istds
  return ⟨area_c10_c16, area_c16_c34, area_c34_c40, area_c10_c40, istd⟩

/-- Side condition of the amended C6: the boundary indices resolved for
a blank run are non-negative and non-decreasing in the order
`i_c10 ≤ i_c16 ≤ i_c34 ≤ i_c40`. The source relies on this alignment of
stored peak indices with boundary order; it is not enforced by the
code. -/
def monotone_boundary_indices (blank : List Peak)
    (c10_c16_start c10_c16_end c16_c34_end c34_c40_end : ℚ) : Prop :=
  ∀ i16 i34 i40 : ℤ,
    get_fraction_end_index blank c10_c16_end = .ok i16 →
    get_fraction_end_index blank c16_c34_end = .ok i34 →
    get_fraction_end_index blank c34_c40_end = .ok i40 →
    0 ≤ get_fraction_start_index blank c10_c16_start ∧
    get_fraction_start_index blank c10_c16_start ≤ i16 ∧ i16 ≤ i34 ∧ i34 ≤ i40

/-! ## Helper lemmas -/

theorem pymin_key_nil (k : α → ℚ) : pymin_key k [] = none := rfl

theorem pymin_key_isSome (k : α → ℚ) (l : List α) (h : l ≠ []) :
    (pymin_key k l).isSome := by
  cases l with
  | nil => exact absurd rfl h
  | cons x xs => simp [pymin_key]

theorem pymin_key_foldl_mem (k : α → ℚ) (x : α) (xs : List α) :
    xs.foldl (fun acc y => if k y < k acc then y else acc) x = x ∨
    xs.foldl (fun acc y => if k y < k acc then y else acc) x ∈ xs := by
  induction xs generalizing x with
  | nil => left; rfl
  | cons y ys ih =>
    simp only [List.foldl_cons]
    rcases ih (if k y < k x then y else x) with h | h
    · rw [h]
      by_cases hy : k y < k x
      · right; simp [hy]
      · left; simp [hy]
    · right; exact List.mem_cons_of_mem _ h

theorem pymin_key_foldl_le (k : α → ℚ) (x : α) (xs : List α) :
    k (xs.foldl (fun acc y => if k y < k acc then y else acc) x) ≤ k x ∧
    ∀ y ∈ xs, k (xs.foldl (fun acc y => if k y < k acc then y else acc) x) ≤ k y := by
  induction xs generalizing x with
  | nil => exact ⟨le_refl _, by simp⟩
  | cons y ys ih =>
    simp only [List.foldl_cons]
    obtain ⟨h1, h2⟩ := ih (if k y < k x then y else x)
    constructor
    · by_cases hy : k y < k x
      · calc k _ ≤ k (if k y < k x then y else x) := h1
          _ ≤ k x := by rw [if_pos hy]; exact le_of_lt hy
      · simpa [hy] using h1
    · intro z hz
      rcases List.mem_cons.mp hz with hz | hz
      · subst hz
        by_cases hy : k z < k x
        · simpa [hy] using h1
        · calc k _ ≤ k (if k z < k x then z else x) := h1
            _ ≤ k z := by rw [if_neg hy]; exact le_of_not_lt hy
      · exact h2 z hz

theorem pymin_key_mem (k : α → ℚ) (l : List α) (m : α)
    (h : pymin_key k l = some m) : m ∈ l := by
  cases l with
  | nil => simp [pymin_key] at h
  | cons x xs =>
    simp only [pymin_key, Option.some.injEq] at h
    rcases pymin_key_foldl_mem k x xs with hm | hm
    · rw [← h, hm]; exact List.mem_cons_self x xs
    · rw [← h]; exact List.mem_cons_of_mem _ hm

theorem pymin_key_le (k : α → ℚ) (l : List α) (m : α)
    (h : pymin_key k l = some m) : ∀ y ∈ l, k m ≤ k y := by
  cases l with
  | nil => simp [pymin_key] at h
  | cons x xs =>
    simp only [pymin_key, Option.some.injEq] at h
    intro y hy
    obtain ⟨h1, h2⟩ := pymin_key_foldl_le k x xs
    rcases List.mem_cons.mp hy with hy | hy
    · rw [← h, hy]; exact h1
    · rw [← h]; exact h2 y hy

theorem pySliceIdx_of_nonneg (len : ℕ) (i : ℤ) (h : 0 ≤ i) :
    pySliceIdx len i = min i.toNat len := by
  simp [pySliceIdx, not_lt.mpr h]

theorem pySliceIdx_mono (len : ℕ) (i j : ℤ) (hi : 0 ≤ i) (hij : i ≤ j) :
    pySliceIdx len i ≤ pySliceIdx len j := by
  rw [pySliceIdx_of_nonneg len i hi, pySliceIdx_of_nonneg len j (le_trans hi hij)]
  exact min_le_min (Int.toNat_le_toNat hij) (le_refl len)

theorem pySlice_append (l : List α) (a b c : ℤ)
    (ha : 0 ≤ a) (hab : a ≤ b) (hbc : b ≤ c) :
    pySlice l a c = pySlice l a b ++ pySlice l b c := by
  unfold pySlice
  have h1 : pySliceIdx l.length a ≤ pySliceIdx l.length b :=
    pySliceIdx_mono l.length a b ha hab
  have h2 : pySliceIdx l.length b ≤ pySliceIdx l.length c :=
    pySliceIdx_mono l.length b c (le_trans ha hab) hbc
  set ea := pySliceIdx l.length a with hea
  set eb := pySliceIdx l.length b with heb
  set ec := pySliceIdx l.length c with hec
  have hsplit : ec - ea = (eb - ea) + (ec - eb) := by omega
  rw [hsplit, List.take_add, List.drop_drop]
  have : ea + (eb - ea) = eb := by omega
  rw [this]

theorem sum_areas_split (l : List Peak) (a b c : ℤ)
    (ha : 0 ≤ a) (hab : a ≤ b) (hbc : b ≤ c) :
    sum_areas l a c = sum_areas l a b + sum_areas l b c := by
  unfold sum_areas
  rw [pySlice_append l a b c ha hab hbc, List.map_append, List.sum_append]

theorem except_bind_ok {ε α β : Type} {x : Except ε α} {f : α → Except ε β} {b : β}
    (h : x >>= f = .ok b) : ∃ a, x = .ok a ∧ f a = .ok b := by
  cases x with
  | error e => simp [Bind.bind, Except.bind] at h
  | ok a => exact ⟨a, rfl, by simpa [Bind.bind, Except.bind] using h⟩

theorem mean_ok {l : List ℚ} {v : ℚ} (h : mean l = .ok v) :
    l ≠ [] ∧ v = l.sum / (l.length : ℚ) := by
  unfold mean pydiv at h
  by_cases hl : (l.length : ℚ) = 0
  · simp [hl] at h
  · refine ⟨fun hnil => hl (by simp [hnil]), ?_⟩
    simp [hl] at h
    exact h.symm

theorem mapM_except_ok {ε α β : Type} {f : α → Except ε β} :
    ∀ {l : List α} {r : List β}, l.mapM' f = .ok r →
      r.length = l.length ∧ ∀ b ∈ r, ∃ a ∈ l, f a = .ok b := by
  intro l
  induction l with
  | nil =>
    intro r h
    simp only [List.mapM'] at h
    cases h
    simp
  | cons x xs ih =>
    intro r h
    simp only [List.mapM'] at h
    obtain ⟨b, hb, h2⟩ := except_bind_ok h
    obtain ⟨bs, hbs, h3⟩ := except_bind_ok h2
    have : r = b :: bs := by
      simpa [Pure.pure, Except.pure] using h3.symm
    subst this
    obtain ⟨hlen, hmem⟩ := ih hbs
    refine ⟨by simp [hlen], ?_⟩
    intro c hc
    rcases List.mem_cons.mp hc with hc | hc
    · exact ⟨x, List.mem_cons_self x xs, hc ▸ hb⟩
    · obtain ⟨a, ha, hfa⟩ := hmem c hc
      exact ⟨a, List.mem_cons_of_mem x ha, hfa⟩

theorem sum_map_add (l : List α) (f g : α → ℚ) :
    (l.map (fun x => f x + g x)).sum = (l.map f).sum + (l.map g).sum := by
  induction l with
  | nil => simp
  | cons x xs ih => simp [ih]; ring

/-! ## Claim theorems -/

/-- C7: for every peak list and integers `0 ≤ i ≤ j ≤ length`,
`sum_areas peaks i j` is the sum of the `area` fields of the peaks at
sequence positions `i` through `j − 1`, the half-open range `[i, j)`. -/
theorem C7_sum_areas_half_open (peaks : List Peak) (i j : ℤ)
    (hi : 0 ≤ i) (hij : i ≤ j) (hj : j ≤ (peaks.length : ℤ)) :
    sum_areas peaks i j =
      (((peaks.drop i.toNat).take (j - i).toNat).map (fun x => x.area)).sum := by
  have hj0 : 0 ≤ j := le_trans hi hij
  have hilen : i.toNat ≤ peaks.length := by omega
  have hjlen : j.toNat ≤ peaks.length := by omega
  unfold sum_areas pySlice
  rw [pySliceIdx_of_nonneg _ i hi, pySliceIdx_of_nonneg _ j hj0,
    Nat.min_eq_left hilen, Nat.min_eq_left hjlen]
  have : j.toNat - i.toNat = (j - i).toNat := by omega
  rw [this]

/-- C7 witness: on the hand-constructed 5-peak fixture,
`sum_areas(peaks, 1, 4)` equals the manually summed areas of the peaks
at positions 1, 2 and 3. -/
theorem C7_sum_areas_half_open_witness :
    (0 : ℤ) ≤ 1 ∧ (1 : ℤ) ≤ 4 ∧ (4 : ℤ) ≤ (([⟨1, 0, 1, 2, 10⟩, ⟨2, 2, 3, 4, 20⟩,
        ⟨3, 4, 5, 6, 30⟩, ⟨4, 6, 7, 8, 40⟩, ⟨5, 8, 9, 10, 50⟩] : List Peak).length : ℤ) ∧
      sum_areas [⟨1, 0, 1, 2, 10⟩, ⟨2, 2, 3, 4, 20⟩, ⟨3, 4, 5, 6, 30⟩,
        ⟨4, 6, 7, 8, 40⟩, ⟨5, 8, 9, 10, 50⟩] 1 4 = 20 + 30 + 40 :=
  ⟨by decide, by decide, by decide, by
    rw [C7_sum_areas_half_open [⟨1, 0, 1, 2, 10⟩, ⟨2, 2, 3, 4, 20⟩, ⟨3, 4, 5, 6, 30⟩,
      ⟨4, 6, 7, 8, 40⟩, ⟨5, 8, 9, 10, 50⟩] 1 4 (by decide) (by decide) (by decide)]
    norm_num [Int.toNat, List.take]⟩

/-- C10: `sum_areas` is total on arbitrary integer bounds: a reversed or
degenerate pair of non-negative bounds yields the empty slice and sum
`0`, and an upper bound at or beyond the end of the list is clipped to
the length, so out-of-range bounds never fail. -/
theorem C10_sum_areas_degenerate_bounds (peaks : List Peak) (i j : ℤ) :
    (0 ≤ j → j ≤ i → sum_areas peaks i j = 0) ∧
    ((peaks.length : ℤ) ≤ j →
      sum_areas peaks i j = sum_areas peaks i (peaks.length : ℤ)) := by
  constructor
  · intro hj hji
    have hi : 0 ≤ i := le_trans hj hji
    unfold sum_areas pySlice
    rw [pySliceIdx_of_nonneg _ i hi, pySliceIdx_of_nonneg _ j hj]
    have : min j.toNat peaks.length - min i.toNat peaks.length = 0 := by omega
    rw [this]
    simp
  · intro hj
    have hj0 : (0 : ℤ) ≤ j := le_trans (by positivity) hj
    unfold sum_areas pySlice
    rw [pySliceIdx_of_nonneg _ j hj0,
      pySliceIdx_of_nonneg _ (peaks.length : ℤ) (by positivity)]
    have h1 : min j.toNat peaks.length = peaks.length := by omega
    have h2 : min (peaks.length : ℤ).toNat peaks.length = peaks.length := by omega
    rw [h1, h2]

/-- C10 witness: reversed bounds give `0` and an overlong upper bound is
clipped, on a concrete two-peak list. -/
theorem C10_sum_areas_degenerate_bounds_witness :
    ((0 : ℤ) ≤ 1 ∧ sum_areas [⟨1, 0, 1, 2, 10⟩, ⟨2, 2, 3, 4, 20⟩] 3 1 = 0) ∧
    ((([⟨1, 0, 1, 2, 10⟩, ⟨2, 2, 3, 4, 20⟩] : List Peak).length : ℤ) ≤ 7 ∧
      sum_areas [⟨1, 0, 1, 2, 10⟩, ⟨2, 2, 3, 4, 20⟩] 0 7 =
        sum_areas [⟨1, 0, 1, 2, 10⟩, ⟨2, 2, 3, 4, 20⟩] 0
          (([⟨1, 0, 1, 2, 10⟩, ⟨2, 2, 3, 4, 20⟩] : List Peak).length : ℤ)) :=
  ⟨⟨by decide,
    (C10_sum_areas_degenerate_bounds [⟨1, 0, 1, 2, 10⟩, ⟨2, 2, 3, 4, 20⟩] 3 1).1
      (by decide) (by decide)⟩,
   ⟨by decide,
    (C10_sum_areas_degenerate_bounds [⟨1, 0, 1, 2, 10⟩, ⟨2, 2, 3, 4, 20⟩] 0 7).2
      (by decide)⟩⟩

theorem mem_end_indexes {peaks : List Peak} {rt_end : ℚ} {t : ℤ × ℚ} :
    t ∈ end_indexes peaks rt_end ↔
      ∃ p ∈ peaks, 0 ≤ p.end_rt - rt_end ∧ t = (p.idx, p.end_rt - rt_end) := by
  simp only [end_indexes, List.mem_map, List.mem_filter, decide_eq_true_eq]
  constructor
  · rintro ⟨p, ⟨hp, hge⟩, rfl⟩
    exact ⟨p, hp, hge, rfl⟩
  · rintro ⟨p, hp, hge, rfl⟩
    exact ⟨p, ⟨hp, hge⟩, rfl⟩

/-- C3: when some peak ends at or after `rt_end`,
`get_fraction_end_index` returns the stored index of a peak whose
non-negative difference `end_rt − rt_end` is minimal; when no peak ends
at or after `rt_end`, it fails (Python's `min` raises `ValueError` on
the empty candidate list) instead of returning an index. -/
theorem C3_fraction_end_index (peaks : List Peak) (rt_end : ℚ) :
    ((∃ p ∈ peaks, rt_end ≤ p.end_rt) →
      ∃ p ∈ peaks, rt_end ≤ p.end_rt ∧
        get_fraction_end_index peaks rt_end = .ok p.idx ∧
        ∀ q ∈ peaks, rt_end ≤ q.end_rt → p.end_rt - rt_end ≤ q.end_rt - rt_end) ∧
    ((∀ p ∈ peaks, p.end_rt < rt_end) →
      get_fraction_end_index peaks rt_end = .error .valueError) := by
  constructor
  · rintro ⟨p0, hp0, hp0e⟩
    have hmem0 : (p0.idx, p0.end_rt - rt_end) ∈ end_indexes peaks rt_end :=
      mem_end_indexes.mpr ⟨p0, hp0, by linarith, rfl⟩
    have hne : end_indexes peaks rt_end ≠ [] := by
      intro hnil
      rw [hnil] at hmem0
      exact absurd hmem0 (List.not_mem_nil _)
    cases hmin : pymin_key (fun i => i.2) (end_indexes peaks rt_end) with
    | none =>
      have := pymin_key_isSome (fun i => i.2) (end_indexes peaks rt_end) hne
      rw [hmin] at this
      exact absurd this (by simp)
    | some t =>
      obtain ⟨p, hp, hge, ht⟩ := mem_end_indexes.mp (pymin_key_mem _ _ _ hmin)
      refine ⟨p, hp, by linarith, ?_, ?_⟩
      · unfold get_fraction_end_index
        rw [hmin, ht]
      · intro q hq hqe
        have hqmem : (q.idx, q.end_rt - rt_end) ∈ end_indexes peaks rt_end :=
          mem_end_indexes.mpr ⟨q, hq, by linarith, rfl⟩
        have := pymin_key_le (fun i => i.2) _ t hmin _ hqmem
        rw [ht] at this
        exact this
  · intro hall
    have hfil : end_indexes peaks rt_end = [] := by
      unfold end_indexes
      rw [List.filter_eq_nil_iff.mpr]
      · rfl
      · intro p hp
        simp only [decide_eq_true_eq, not_le]
        have := hall p hp
        linarith
    unfold get_fraction_end_index
    rw [hfil]
    rfl

/-- C3 witness: on a concrete two-peak list a peak ends at or after the
target and the closest-from-above peak's stored index is returned. -/
theorem C3_fraction_end_index_witness :
    (∃ p ∈ ([⟨1, 0, 1, 2, 10⟩, ⟨2, 2, 3, 4, 20⟩] : List Peak), (3 : ℚ) ≤ p.end_rt) ∧
    ∃ p ∈ ([⟨1, 0, 1, 2, 10⟩, ⟨2, 2, 3, 4, 20⟩] : List Peak), (3 : ℚ) ≤ p.end_rt ∧
      get_fraction_end_index [⟨1, 0, 1, 2, 10⟩, ⟨2, 2, 3, 4, 20⟩] 3 = .ok p.idx ∧
      ∀ q ∈ ([⟨1, 0, 1, 2, 10⟩, ⟨2, 2, 3, 4, 20⟩] : List Peak), (3 : ℚ) ≤ q.end_rt →
        p.end_rt - 3 ≤ q.end_rt - 3 :=
  ⟨⟨⟨2, 2, 3, 4, 20⟩, by simp, by norm_num⟩,
   (C3_fraction_end_index [⟨1, 0, 1, 2, 10⟩, ⟨2, 2, 3, 4, 20⟩] 3).1
     ⟨⟨2, 2, 3, 4, 20⟩, by simp, by norm_num⟩⟩

theorem mem_start_indexes {peaks : List Peak} {rt_start : ℚ} {t : ℤ × ℚ} :
    t ∈ start_indexes peaks rt_start ↔
      ∃ p ∈ peaks, p.start_rt - rt_start ≤ 0 ∧ t = (p.idx, |p.start_rt - rt_start|) := by
  simp only [start_indexes, List.mem_map, List.mem_filter, decide_eq_true_eq]
  constructor
  · rintro ⟨p, ⟨hp, hle⟩, rfl⟩
    exact ⟨p, hp, hle, rfl⟩
  · rintro ⟨p, hp, hle, rfl⟩
    exact ⟨p, ⟨hp, hle⟩, rfl⟩

/-- C4: when some peak starts at or before `rt_start`,
`get_fraction_start_index` returns the stored index of a peak minimizing
`|start_rt − rt_start|` among those peaks; when every peak starts
strictly after `rt_start`, it returns the fallback index `1` instead of
failing. -/
theorem C4_fraction_start_index (peaks : List Peak) (rt_start : ℚ) :
    ((∃ p ∈ peaks, p.start_rt ≤ rt_start) →
      ∃ p ∈ peaks, p.start_rt ≤ rt_start ∧
        get_fraction_start_index peaks rt_start = p.idx ∧
        ∀ q ∈ peaks, q.start_rt ≤ rt_start →
          |p.start_rt - rt_start| ≤ |q.start_rt - rt_start|) ∧
    ((∀ p ∈ peaks, rt_start < p.start_rt) →
      get_fraction_start_index peaks rt_start = 1) := by
  constructor
  · rintro ⟨p0, hp0, hp0s⟩
    have hmem0 : (p0.idx, |p0.start_rt - rt_start|) ∈ start_indexes peaks rt_start :=
      mem_start_indexes.mpr ⟨p0, hp0, by linarith, rfl⟩
    have hne : start_indexes peaks rt_start ≠ [] := by
      intro hnil
      rw [hnil] at hmem0
      exact absurd hmem0 (List.not_mem_nil _)
    cases hmin : pymin_key (fun i => i.2) (start_indexes peaks rt_start) with
    | none =>
      have := pymin_key_isSome (fun i => i.2) (start_indexes peaks rt_start) hne
      rw [hmin] at this
      exact absurd this (by simp)
    | some t =>
      obtain ⟨p, hp, hle, ht⟩ := mem_start_indexes.mp (pymin_key_mem _ _ _ hmin)
      refine ⟨p, hp, by linarith, ?_, ?_⟩
      · unfold get_fraction_start_index
        rw [hmin, ht]
      · intro q hq hqs
        have hqmem : (q.idx, |q.start_rt - rt_start|) ∈ start_indexes peaks rt_start :=
          mem_start_indexes.mpr ⟨q, hq, by linarith, rfl⟩
        have := pymin_key_le (fun i => i.2) _ t hmin _ hqmem
        rw [ht] at this
        exact this
  · intro hall
    have hfil : start_indexes peaks rt_start = [] := by
      unfold start_indexes
      rw [List.filter_eq_nil_iff.mpr]
      · rfl
      · intro p hp
        simp only [decide_eq_true_eq, not_le]
        have := hall p hp
        linarith
    unfold get_fraction_start_index
    rw [hfil]
    rfl

/-- C4 witness: on a concrete list where every peak starts after the
target, the fallback index `1` is returned; and on one where a peak
starts before the target, that peak's stored index is returned. -/
theorem C4_fraction_start_index_witness :
    ((∀ p ∈ ([⟨1, 5, 6, 7, 10⟩, ⟨2, 8, 9, 10, 20⟩] : List Peak), (2 : ℚ) < p.start_rt) ∧
      get_fraction_start_index [⟨1, 5, 6, 7, 10⟩, ⟨2, 8, 9, 10, 20⟩] 2 = 1) ∧
    ((∃ p ∈ ([⟨1, 0, 1, 2, 10⟩, ⟨2, 2, 3, 4, 20⟩] : List Peak), p.start_rt ≤ (3 : ℚ)) ∧
      ∃ p ∈ ([⟨1, 0, 1, 2, 10⟩, ⟨2, 2, 3, 4, 20⟩] : List Peak), p.start_rt ≤ (3 : ℚ) ∧
        get_fraction_start_index [⟨1, 0, 1, 2, 10⟩, ⟨2, 2, 3, 4, 20⟩] 3 = p.idx ∧
        ∀ q ∈ ([⟨1, 0, 1, 2, 10⟩, ⟨2, 2, 3, 4, 20⟩] : List Peak), q.start_rt ≤ (3 : ℚ) →
          |p.start_rt - 3| ≤ |q.start_rt - 3|) :=
  ⟨⟨by intro p hp; fin_cases hp <;> norm_num,
    (C4_fraction_start_index [⟨1, 5, 6, 7, 10⟩, ⟨2, 8, 9, 10, 20⟩] 2).2
      (by intro p hp; fin_cases hp <;> norm_num)⟩,
   ⟨⟨⟨1, 0, 1, 2, 10⟩, by simp, by norm_num⟩,
    (C4_fraction_start_index [⟨1, 0, 1, 2, 10⟩, ⟨2, 2, 3, 4, 20⟩] 3).1
      ⟨⟨1, 0, 1, 2, 10⟩, by simp, by norm_num⟩⟩⟩

/-- C2: `get_istd_area` returns the area of the unique candidate when
exactly one peak lies in both the retention-time and the area window
simultaneously; with more than one candidate it returns the area of a
candidate of minimal `|rt − istd_rt|`; with no candidate it raises an
ISTD error. -/
theorem C2_get_istd_area (peaks : List Peak)
    (istd_rt istd_rt_tolerance istd_area_target istd_area_tolerance : ℚ) :
    (∀ p, istd_peak_list peaks istd_rt istd_rt_tolerance istd_area_target
        istd_area_tolerance = [p] →
      get_istd_area peaks istd_rt istd_rt_tolerance istd_area_target
        istd_area_tolerance = .ok p.2) ∧
    ((istd_peak_list peaks istd_rt istd_rt_tolerance istd_area_target
        istd_area_tolerance).length > 1 →
      ∃ p ∈ istd_peak_list peaks istd_rt istd_rt_tolerance istd_area_target
          istd_area_tolerance,
        (∀ q ∈ istd_peak_list peaks istd_rt istd_rt_tolerance istd_area_target
            istd_area_tolerance, |p.1 - istd_rt| ≤ |q.1 - istd_rt|) ∧
        get_istd_area peaks istd_rt istd_rt_tolerance istd_area_target
          istd_area_tolerance = .ok p.2) ∧
    (istd_peak_list peaks istd_rt istd_rt_tolerance istd_area_target
        istd_area_tolerance = [] →
      get_istd_area peaks istd_rt istd_rt_tolerance istd_area_target
        istd_area_tolerance = .error .istdNoPeak) := by
  refine ⟨?_, ?_, ?_⟩
  · intro p hp
    unfold get_istd_area
    rw [hp]
    simp [isolate_istd]
  · intro hlen
    set L := istd_peak_list peaks istd_rt istd_rt_tolerance istd_area_target
      istd_area_tolerance with hL
    have hmapne : L.map (fun p => (|p.1 - istd_rt|, p.2)) ≠ [] := by
      intro hnil
      rw [List.map_eq_nil_iff] at hnil
      rw [hnil] at hlen
      simp at hlen
    cases hmin : pymin_key (fun i => i.1)
        (L.map (fun p => (|p.1 - istd_rt|, p.2))) with
    | none =>
      have := pymin_key_isSome (fun i => i.1) _ hmapne
      rw [hmin] at this
      exact absurd this (by simp)
    | some m =>
      obtain ⟨p, hpL, hpm⟩ := List.mem_map.mp (pymin_key_mem _ _ _ hmin)
      refine ⟨p, hpL, ?_, ?_⟩
      · intro q hqL
        have hq : (|q.1 - istd_rt|, q.2) ∈
            L.map (fun p => (|p.1 - istd_rt|, p.2)) :=
          List.mem_map.mpr ⟨q, hqL, rfl⟩
        have := pymin_key_le (fun i => i.1) _ m hmin _ hq
        rw [← hpm] at this
        exact this
      · unfold get_istd_area isolate_istd
        rw [← hL, if_pos hlen, hmin]
        show Except.ok m.2 = Except.ok p.2
        rw [← hpm]
  · intro hp
    unfold get_istd_area
    rw [hp]
    simp [isolate_istd]

/-- C2 witness: the three branches at concrete inputs — the spec §8
fixture with a unique ISTD candidate, a two-candidate list, and a list
with no candidate. -/
theorem C2_get_istd_area_witness :
    (istd_peak_list [⟨1, 0, 1, 2, 1000⟩, ⟨2, 2, 3, 4, 5000⟩, ⟨3, 4, 5, 6, 2000⟩]
        3 (1/2) 5000 500 = [(3, 5000)] ∧
      get_istd_area [⟨1, 0, 1, 2, 1000⟩, ⟨2, 2, 3, 4, 5000⟩, ⟨3, 4, 5, 6, 2000⟩]
        3 (1/2) 5000 500 = .ok 5000) ∧
    ((istd_peak_list [⟨1, 0, 2, 3, 80⟩, ⟨2, 3, 4, 5, 120⟩] 3 2 100 50).length > 1 ∧
      ∃ p ∈ istd_peak_list [⟨1, 0, 2, 3, 80⟩, ⟨2, 3, 4, 5, 120⟩] 3 2 100 50,
        (∀ q ∈ istd_peak_list [⟨1, 0, 2, 3, 80⟩, ⟨2, 3, 4, 5, 120⟩] 3 2 100 50,
          |p.1 - 3| ≤ |q.1 - 3|) ∧
        get_istd_area [⟨1, 0, 2, 3, 80⟩, ⟨2, 3, 4, 5, 120⟩] 3 2 100 50 = .ok p.2) ∧
    (istd_peak_list [⟨1, 0, 9, 10, 80⟩] 3 2 100 50 = [] ∧
      get_istd_area [⟨1, 0, 9, 10, 80⟩] 3 2 100 50 = .error .istdNoPeak) :=
  ⟨⟨by norm_num [istd_peak_list, List.filter_cons],
    (C2_get_istd_area [⟨1, 0, 1, 2, 1000⟩, ⟨2, 2, 3, 4, 5000⟩, ⟨3, 4, 5, 6, 2000⟩]
        3 (1/2) 5000 500).1 (3, 5000)
      (by norm_num [istd_peak_list, List.filter_cons])⟩,
   ⟨by norm_num [istd_peak_list, List.filter_cons],
    (C2_get_istd_area [⟨1, 0, 2, 3, 80⟩, ⟨2, 3, 4, 5, 120⟩] 3 2 100 50).2.1
      (by norm_num [istd_peak_list, List.filter_cons])⟩,
   ⟨by norm_num [istd_peak_list, List.filter_cons],
    (C2_get_istd_area [⟨1, 0, 9, 10, 80⟩] 3 2 100 50).2.2
      (by norm_num [istd_peak_list, List.filter_cons])⟩⟩

/-- C9: the "More than one acceptable internal standard peak found"
branch of `get_istd_area` is unreachable: whenever the combined filter
leaves more than one candidate, the minimum-`|rt − istd_rt|`
disambiguation reduces the list to a singleton, so no input makes
`get_istd_area` return that error. -/
theorem C9_no_multiple_peak_error (peaks : List Peak)
    (istd_rt istd_rt_tolerance istd_area_target istd_area_tolerance : ℚ) :
    get_istd_area peaks istd_rt istd_rt_tolerance istd_area_target
      istd_area_tolerance ≠ .error .istdMultiplePeaks := by
  unfold get_istd_area isolate_istd
  set L := istd_peak_list peaks istd_rt istd_rt_tolerance istd_area_target
    istd_area_tolerance with hL
  by_cases hlen : L.length > 1
  · rw [if_pos hlen]
    have hmapne : L.map (fun p => (|p.1 - istd_rt|, p.2)) ≠ [] := by
      intro hnil
      rw [List.map_eq_nil_iff] at hnil
      rw [hnil] at hlen
      simp at hlen
    cases hmin : pymin_key (fun i => i.1)
        (L.map (fun p => (|p.1 - istd_rt|, p.2))) with
    | none =>
      have := pymin_key_isSome (fun i => i.1) _ hmapne
      rw [hmin] at this
      exact absurd this (by simp)
    | some m => simp
  · rw [if_neg hlen]
    match hcase : L with
    | [] => simp
    | [p] => simp
    | p :: q :: rest =>
      refine absurd ?_ hlen
      simp only [List.length_cons]
      omega

theorem except_ok_bind {ε α β : Type} (x : α) (f : α → Except ε β) :
    (Except.ok x >>= f : Except ε β) = f x := rfl

theorem except_pure_eq {ε α : Type} (x : α) :
    (pure x : Except ε α) = Except.ok x := rfl

/-- C8: feeding `response_ratio = c * slope + intercept` through the
calibration-inversion step of `calculate_sample_concentration` recovers
the original concentration ratio `c` exactly, for any non-zero slope. -/
theorem C8_calibration_roundtrip (calibration_slope calibration_intercept c : ℚ)
    (h : calibration_slope ≠ 0) :
    calibration_inversion (c * calibration_slope + calibration_intercept)
      calibration_intercept calibration_slope = .ok c := by
  unfold calibration_inversion pydiv
  rw [if_neg h]
  congr 1
  field_simp

/-- C8 witness: slope 2, intercept 3, concentration ratio 5. -/
theorem C8_calibration_roundtrip_witness :
    (2 : ℚ) ≠ 0 ∧ calibration_inversion (5 * 2 + 3) 3 2 = .ok 5 :=
  ⟨by norm_num, C8_calibration_roundtrip 2 3 5 (by norm_num)⟩

/-- C1: when the ISTD lookup succeeds with area `istd` and no divisor is
zero, `calculate_sample_concentration` returns exactly
`round((((sum − istd·(blank.area/blank.istd))/istd − intercept)/slope)
· istd_concentration · dilution_factor, decimal_places)`. -/
theorem C1_concentration_formula (peaks : List Peak)
    (blank_area blank_istd : ℚ) (low_index high_index : ℤ)
    (istd_rt istd_rt_tolerance istd_area_target istd_area_tolerance : ℚ)
    (calibration_slope calibration_intercept istd_concentration dilution_factor : ℚ)
    (dp : ℕ) (istd : ℚ)
    (h_istd : get_istd_area peaks istd_rt istd_rt_tolerance istd_area_target
      istd_area_tolerance = .ok istd)
    (hb : blank_istd ≠ 0) (hi : istd ≠ 0) (hs : calibration_slope ≠ 0) :
    calculate_sample_concentration peaks blank_area blank_istd low_index high_index
      istd_rt istd_rt_tolerance istd_area_target istd_area_tolerance
      calibration_slope calibration_intercept istd_concentration dilution_factor dp =
    .ok (pyRound ((((sum_areas peaks low_index high_index -
        istd * (blank_area / blank_istd)) / istd - calibration_intercept) /
        calibration_slope) * istd_concentration * dilution_factor) dp) := by
  unfold calculate_sample_concentration
  rw [h_istd, except_ok_bind]
  unfold calibration_inversion pydiv
  rw [if_neg hb, except_ok_bind, if_neg hi, except_ok_bind, if_neg hs,
    except_ok_bind, except_pure_eq]

/-- C1 witness: the spec §8 fixture with concrete calibration and blank
parameters; every hypothesis holds and the formula value is returned. -/
theorem C1_concentration_formula_witness :
    get_istd_area [⟨1, 0, 1, 2, 1000⟩, ⟨2, 2, 3, 4, 5000⟩, ⟨3, 4, 5, 6, 2000⟩]
      3 (1/2) 5000 500 = .ok 5000 ∧
    (2 : ℚ) ≠ 0 ∧ (5000 : ℚ) ≠ 0 ∧ (4 : ℚ) ≠ 0 ∧
    calculate_sample_concentration
      [⟨1, 0, 1, 2, 1000⟩, ⟨2, 2, 3, 4, 5000⟩, ⟨3, 4, 5, 6, 2000⟩]
      100 2 0 2 3 (1/2) 5000 500 4 1 3 2 3 =
    .ok (pyRound ((((sum_areas
        [⟨1, 0, 1, 2, 1000⟩, ⟨2, 2, 3, 4, 5000⟩, ⟨3, 4, 5, 6, 2000⟩] 0 2 -
        5000 * ((100 : ℚ) / 2)) / 5000 - 1) / 4) * 3 * 2) 3) :=
  ⟨by norm_num [get_istd_area, isolate_istd, istd_peak_list, List.filter_cons],
   by norm_num, by norm_num, by norm_num,
   C1_concentration_formula
     [⟨1, 0, 1, 2, 1000⟩, ⟨2, 2, 3, 4, 5000⟩, ⟨3, 4, 5, 6, 2000⟩]
     100 2 0 2 3 (1/2) 5000 500 4 1 3 2 3 5000
     (by norm_num [get_istd_area, isolate_istd, istd_peak_list, List.filter_cons])
     (by norm_num) (by norm_num) (by norm_num)⟩

/-- C5: with a successful ISTD lookup, if the located ISTD area, the
calibration slope or the blank's averaged ISTD area is zero,
`calculate_sample_concentration` propagates a `ZeroDivisionError`
instead of returning any substituted value. -/
theorem C5_division_by_zero (peaks : List Peak)
    (blank_area blank_istd : ℚ) (low_index high_index : ℤ)
    (istd_rt istd_rt_tolerance istd_area_target istd_area_tolerance : ℚ)
    (calibration_slope calibration_intercept istd_concentration dilution_factor : ℚ)
    (dp : ℕ) (istd : ℚ)
    (h_istd : get_istd_area peaks istd_rt istd_rt_tolerance istd_area_target
      istd_area_tolerance = .ok istd)
    (hzero : istd = 0 ∨ calibration_slope = 0 ∨ blank_istd = 0) :
    calculate_sample_concentration peaks blank_area blank_istd low_index high_index
      istd_rt istd_rt_tolerance istd_area_target istd_area_tolerance
      calibration_slope calibration_intercept istd_concentration dilution_factor dp =
    .error .zeroDivision := by
  unfold calculate_sample_concentration
  rw [h_istd, except_ok_bind]
  unfold calibration_inversion pydiv
  by_cases hb : blank_istd = 0
  · rw [if_pos hb]
    rfl
  · rw [if_neg hb, except_ok_bind]
    by_cases hi : istd = 0
    · rw [if_pos hi]
      rfl
    · rw [if_neg hi, except_ok_bind]
      have hs : calibration_slope = 0 := by tauto
      rw [if_pos hs]
      rfl

/-- C5 witness: the fixture's ISTD lookup succeeds and a zero
calibration slope yields the zero-division error. -/
theorem C5_division_by_zero_witness :
    get_istd_area [⟨1, 0, 1, 2, 1000⟩, ⟨2, 2, 3, 4, 5000⟩, ⟨3, 4, 5, 6, 2000⟩]
      3 (1/2) 5000 500 = .ok 5000 ∧
    ((5000 : ℚ) = 0 ∨ (0 : ℚ) = 0 ∨ (2 : ℚ) = 0) ∧
    calculate_sample_concentration
      [⟨1, 0, 1, 2, 1000⟩, ⟨2, 2, 3, 4, 5000⟩, ⟨3, 4, 5, 6, 2000⟩]
      100 2 0 2 3 (1/2) 5000 500 0 1 3 2 3 =
    .error .zeroDivision :=
  ⟨by norm_num [get_istd_area, isolate_istd, istd_peak_list, List.filter_cons],
   by norm_num,
   C5_division_by_zero
     [⟨1, 0, 1, 2, 1000⟩, ⟨2, 2, 3, 4, 5000⟩, ⟨3, 4, 5, 6, 2000⟩]
     100 2 0 2 3 (1/2) 5000 500 0 1 3 2 3 5000
     (by norm_num [get_istd_area, isolate_istd, istd_peak_list, List.filter_cons])
     (Or.inr (Or.inl rfl))⟩

/-- C6 counterexample: one blank run, valid per the data model (indices
1,2,3 matching positions, `start_rt ≤ rt ≤ end_rt`, ascending `rt`), on
which every boundary resolution and the ISTD lookup succeed, yet the
constructed full-mode blank average has `area_c10_c40 = 0` while the
three sub-fraction averages sum to `16`: the long first peak
(`end_rt = 30`) makes the resolved indices non-monotone
(`i_c16 = 2`, `i_c34 = 3`, `i_c40 = 1`), so the combined slice is empty. -/
theorem C6_counterexample :
    ∃ ba : BlankAverageFull,
      blankAverageFull [[⟨1, 0, 1, 30, 100⟩, ⟨2, 3/2, 2, 5, 7⟩, ⟨3, 5/2, 3, 6, 9⟩]]
        (-1) 4 (11/2) 7 1 (1/10) 100 0 = .ok ba ∧
      ba.area_c10_c40 ≠ ba.area_c10_c16 + ba.area_c16_c34 + ba.area_c34_c40 := by
  refine ⟨⟨7, 9, 0, 0, 100⟩, ?_, by norm_num⟩
  have hsums : blank_fraction_sums
      [⟨1, 0, 1, 30, 100⟩, ⟨2, 3/2, 2, 5, 7⟩, ⟨3, 5/2, 3, 6, 9⟩]
      (-1) 4 (11/2) 7 = .ok (7, 9, 0, 0) := by
    norm_num [blank_fraction_sums, get_fraction_end_index, get_fraction_start_index,
      end_indexes, start_indexes, pymin_key, List.filter_cons, except_ok_bind,
      except_pure_eq, sum_areas, pySlice, pySliceIdx,
      show ((2:ℤ).toNat = 2) from rfl, show ((3:ℤ).toNat = 3) from rfl]
  have histd : get_istd_area
      [⟨1, 0, 1, 30, 100⟩, ⟨2, 3/2, 2, 5, 7⟩, ⟨3, 5/2, 3, 6, 9⟩]
      1 (1/10) 100 0 = .ok 100 := by
    norm_num [get_istd_area, isolate_istd, istd_peak_list, List.filter_cons]
  have hsums2 : List.mapM (fun blank => blank_fraction_sums blank (-1) 4 (11/2) 7)
      [[⟨1, 0, 1, 30, 100⟩, ⟨2, 3/2, 2, 5, 7⟩, ⟨3, 5/2, 3, 6, 9⟩]] =
      .ok [(7, 9, 0, 0)] := by
    rw [List.mapM_cons, List.mapM_nil, hsums]
    rfl
  have histds2 : List.mapM (fun x => get_istd_area x 1 (1/10) 100 0)
      [[⟨1, 0, 1, 30, 100⟩, ⟨2, 3/2, 2, 5, 7⟩, ⟨3, 5/2, 3, 6, 9⟩]] = .ok [100] := by
    rw [List.mapM_cons, List.mapM_nil, histd]
    rfl
  unfold blankAverageFull
  rw [hsums2, except_ok_bind, histds2]
  norm_num [mean, pydiv, except_ok_bind, except_pure_eq]

theorem blank_fraction_sums_additive (blank : List Peak)
    (c10_c16_start c10_c16_end c16_c34_end c34_c40_end : ℚ)
    (hmono : monotone_boundary_indices blank c10_c16_start c10_c16_end
      c16_c34_end c34_c40_end)
    (t : ℚ × ℚ × ℚ × ℚ)
    (h : blank_fraction_sums blank c10_c16_start c10_c16_end c16_c34_end
      c34_c40_end = .ok t) :
    t.2.2.2 = t.1 + t.2.1 + t.2.2.1 := by
  unfold blank_fraction_sums at h
  obtain ⟨i16, h16, h⟩ := except_bind_ok h
  obtain ⟨i34, h34, h⟩ := except_bind_ok h
  obtain ⟨i40, h40, h⟩ := except_bind_ok h
  rw [except_pure_eq] at h
  injection h with h
  obtain ⟨h0, h1, h2, h3⟩ := hmono i16 i34 i40 h16 h34 h40
  subst h
  simp only
  rw [sum_areas_split blank (get_fraction_start_index blank c10_c16_start) i34 i40
      h0 (le_trans h1 h2) h3,
    sum_areas_split blank (get_fraction_start_index blank c10_c16_start) i16 i34
      h0 h1 h2]

/-- C6 (amended): for every list of blank runs in full-TRH mode for
which the construction succeeds AND whose resolved boundary indices are
non-negative and non-decreasing (`i_c10 ≤ i_c16 ≤ i_c34 ≤ i_c40`) on
each blank, the blank average satisfies
`area_c10_c40 = area_c10_c16 + area_c16_c34 + area_c34_c40` exactly.
Without the monotonicity side condition the invariant fails
(`C6_counterexample`). -/
theorem C6_blank_average_additive (blank_data : List (List Peak))
    (c10_c16_start c10_c16_end c16_c34_end c34_c40_end : ℚ)
    (istd_rt istd_rt_tolerance istd_area_target istd_area_tolerance : ℚ)
    (hmono : ∀ blank ∈ blank_data, monotone_boundary_indices blank
      c10_c16_start c10_c16_end c16_c34_end c34_c40_end)
    (ba : BlankAverageFull)
    (h : blankAverageFull blank_data c10_c16_start c10_c16_end c16_c34_end
      c34_c40_end istd_rt istd_rt_tolerance istd_area_target
      istd_area_tolerance = .ok ba) :
    ba.area_c10_c40 = ba.area_c10_c16 + ba.area_c16_c34 + ba.area_c34_c40 := by
  unfold blankAverageFull at h
  obtain ⟨sums, hsums, h⟩ := except_bind_ok h
  obtain ⟨a1, ha1, h⟩ := except_bind_ok h
  obtain ⟨a2, ha2, h⟩ := except_bind_ok h
  obtain ⟨a3, ha3, h⟩ := except_bind_ok h
  obtain ⟨a4, ha4, h⟩ := except_bind_ok h
  obtain ⟨istds, histds, h⟩ := except_bind_ok h
  obtain ⟨istdv, histd, h⟩ := except_bind_ok h
  rw [except_pure_eq] at h
  injection h with h
  subst h
  simp only
  rw [← List.mapM'_eq_mapM] at hsums
  obtain ⟨hlen, hmem⟩ := mapM_except_ok hsums
  have hadd : ∀ t ∈ sums, t.2.2.2 = t.1 + t.2.1 + t.2.2.1 := by
    intro t ht
    obtain ⟨blank, hbl, hok⟩ := hmem t ht
    exact blank_fraction_sums_additive blank _ _ _ _ (hmono blank hbl) t hok
  obtain ⟨-, ha1v⟩ := mean_ok ha1
  obtain ⟨-, ha2v⟩ := mean_ok ha2
  obtain ⟨-, ha3v⟩ := mean_ok ha3
  obtain ⟨-, ha4v⟩ := mean_ok ha4
  have hmap4 : sums.map (fun s => s.2.2.2) =
      sums.map (fun s => s.1 + s.2.1 + s.2.2.1) :=
    List.map_congr_left hadd
  rw [ha1v, ha2v, ha3v, ha4v, hmap4, sum_map_add sums (fun s => s.1 + s.2.1)
    (fun s => s.2.2.1), sum_map_add sums (fun s => s.1) (fun s => s.2.1)]
  simp only [List.length_map]
  rw [div_add_div_same, div_add_div_same]

/-- C6 amended-claim witness: a single well-ordered blank run whose
resolved indices are monotone; the invariant `16 = 0 + 7 + 9` holds. -/
theorem C6_blank_average_additive_witness :
    (∀ blank ∈ [[(⟨1, 0, 1, 2, 100⟩ : Peak), ⟨2, 2, 3, 4, 7⟩, ⟨3, 4, 5, 6, 9⟩]],
      monotone_boundary_indices blank (-1) 2 4 6) ∧
    blankAverageFull [[⟨1, 0, 1, 2, 100⟩, ⟨2, 2, 3, 4, 7⟩, ⟨3, 4, 5, 6, 9⟩]]
      (-1) 2 4 6 1 (1/10) 100 0 = .ok ⟨0, 7, 9, 16, 100⟩ ∧
    (⟨0, 7, 9, 16, 100⟩ : BlankAverageFull).area_c10_c40 =
      (⟨0, 7, 9, 16, 100⟩ : BlankAverageFull).area_c10_c16 +
      (⟨0, 7, 9, 16, 100⟩ : BlankAverageFull).area_c16_c34 +
      (⟨0, 7, 9, 16, 100⟩ : BlankAverageFull).area_c34_c40 := by
  have he1 : get_fraction_end_index
      [(⟨1, 0, 1, 2, 100⟩ : Peak), ⟨2, 2, 3, 4, 7⟩, ⟨3, 4, 5, 6, 9⟩] 2 = .ok 1 := by
    norm_num [get_fraction_end_index, end_indexes, pymin_key, List.filter_cons]
  have he2 : get_fraction_end_index
      [(⟨1, 0, 1, 2, 100⟩ : Peak), ⟨2, 2, 3, 4, 7⟩, ⟨3, 4, 5, 6, 9⟩] 4 = .ok 2 := by
    norm_num [get_fraction_end_index, end_indexes, pymin_key, List.filter_cons]
  have he3 : get_fraction_end_index
      [(⟨1, 0, 1, 2, 100⟩ : Peak), ⟨2, 2, 3, 4, 7⟩, ⟨3, 4, 5, 6, 9⟩] 6 = .ok 3 := by
    norm_num [get_fraction_end_index, end_indexes, pymin_key, List.filter_cons]
  have hst : get_fraction_start_index
      [(⟨1, 0, 1, 2, 100⟩ : Peak), ⟨2, 2, 3, 4, 7⟩, ⟨3, 4, 5, 6, 9⟩] (-1) = 1 := by
    norm_num [get_fraction_start_index, start_indexes, pymin_key, List.filter_cons]
  have hmono : ∀ blank ∈ [[(⟨1, 0, 1, 2, 100⟩ : Peak), ⟨2, 2, 3, 4, 7⟩,
      ⟨3, 4, 5, 6, 9⟩]], monotone_boundary_indices blank (-1) 2 4 6 := by
    intro blank hbl
    rw [List.mem_singleton] at hbl
    subst hbl
    intro i16 i34 i40 h16 h34 h40
    rw [he1] at h16
    rw [he2] at h34
    rw [he3] at h40
    injection h16 with h16
    injection h34 with h34
    injection h40 with h40
    subst h16
    subst h34
    subst h40
    rw [hst]
    norm_num
  have hok : blankAverageFull [[(⟨1, 0, 1, 2, 100⟩ : Peak), ⟨2, 2, 3, 4, 7⟩,
      ⟨3, 4, 5, 6, 9⟩]] (-1) 2 4 6 1 (1/10) 100 0 = .ok ⟨0, 7, 9, 16, 100⟩ := ?_
  case _ =>
    exact ⟨hmono, hok,
      C6_blank_average_additive _ (-1) 2 4 6 1 (1/10) 100 0 hmono _ hok⟩
  have hsums : blank_fraction_sums
      [(⟨1, 0, 1, 2, 100⟩ : Peak), ⟨2, 2, 3, 4, 7⟩, ⟨3, 4, 5, 6, 9⟩]
      (-1) 2 4 6 = .ok (0, 7, 9, 16) := by
    unfold blank_fraction_sums
    rw [he1, except_ok_bind, he2, except_ok_bind, he3, except_ok_bind, hst,
      except_pure_eq]
    norm_num [sum_areas, pySlice, pySliceIdx,
      show ((2:ℤ).toNat = 2) from rfl, show ((3:ℤ).toNat = 3) from rfl]
  have histd : get_istd_area
      [(⟨1, 0, 1, 2, 100⟩ : Peak), ⟨2, 2, 3, 4, 7⟩, ⟨3, 4, 5, 6, 9⟩]
      1 (1/10) 100 0 = .ok 100 := by
    norm_num [get_istd_area, isolate_istd, istd_peak_list, List.filter_cons]
  have hsums2 : List.mapM (fun blank => blank_fraction_sums blank (-1) 2 4 6)
      [[(⟨1, 0, 1, 2, 100⟩ : Peak), ⟨2, 2, 3, 4, 7⟩, ⟨3, 4, 5, 6, 9⟩]] =
      .ok [(0, 7, 9, 16)] := by
    rw [List.mapM_cons, List.mapM_nil, hsums]
    rfl
  have histds2 : List.mapM (fun x => get_istd_area x 1 (1/10) 100 0)
      [[(⟨1, 0, 1, 2, 100⟩ : Peak), ⟨2, 2, 3, 4, 7⟩, ⟨3, 4, 5, 6, 9⟩]] =
      .ok [100] := by
    rw [List.mapM_cons, List.mapM_nil, histd]
    rfl
  unfold blankAverageFull
  rw [hsums2, except_ok_bind, histds2]
  norm_num [mean, pydiv, except_ok_bind, except_pure_eq]

end OrgProcess
